import Mathlib

/-!
Verification of the multi-shot trajectory-optimization core
(`TrajectoryRollout.cpp` / `MultiShot.cpp`) against its specification.

Vectors (`Eigen::VectorXd`) are embedded as `List ℚ`; matrices
(`Eigen::MatrixXd`) as lists of columns, matching Eigen's column-major
access pattern in the source.  All values in the functions under study are
only ever copied, negated or subtracted, so the exact field ℚ is a faithful
carrier for the bitwise claims.  The simulator and the `AbstractShot` /
`SingleShot` layers that are not part of the source under study are taken
as abstract parameters or modelled from the specification, as flagged in
the doc comment of each such definition.
-/

namespace Traj

/-- A dense vector (`Eigen::VectorXd`). -/
abbrev Vec := List ℚ

/-- A dense matrix (`Eigen::MatrixXd`) stored as its list of columns. -/
abbrev Mat := List Vec

/-- `writeSeg v cursor seg` is Eigen's `v.segment(cursor, seg.length) = seg`:
the buffer with `seg` overwritten starting at `cursor`. -/
def writeSeg {α : Type} (v : List α) (cursor : ℕ) (seg : List α) : List α :=
  v.take cursor ++ seg ++ v.drop (cursor + seg.length)

/-- Split a list into consecutive chunks of the given sizes. -/
def chunks {α : Type} : List ℕ → List α → List (List α)
  | [], _ => []
  | n :: ns, x => x.take n :: chunks ns (x.drop n)

theorem chunks_flatten {α : Type} :
    ∀ (ns : List ℕ) (x : List α), ns.sum ≤ x.length →
      (chunks ns x).flatten = x.take ns.sum := by
  intro ns
  induction ns with
  | nil => intro x _; simp [chunks]
  | cons n ns ih =>
    intro x h
    simp only [List.sum_cons] at h
    simp only [chunks, List.flatten_cons, List.sum_cons]
    rw [ih (x.drop n) (by simp only [List.length_drop]; omega)]
    rw [List.take_add]

theorem chunks_sizes {α : Type} :
    ∀ (ns : List ℕ) (x : List α), ns.sum ≤ x.length →
      (chunks ns x).map List.length = ns := by
  intro ns
  induction ns with
  | nil => intro x _; simp [chunks]
  | cons n ns ih =>
    intro x h
    simp only [List.sum_cons] at h
    simp only [chunks, List.map_cons, List.length_take]
    rw [min_eq_left (by omega), ih (x.drop n) (by simp only [List.length_drop]; omega)]

theorem length_writeSeg {α : Type} (v : List α) (cursor : ℕ) (seg : List α)
    (h : cursor + seg.length ≤ v.length) :
    (writeSeg v cursor seg).length = v.length := by
  simp only [writeSeg, List.length_append, List.length_take, List.length_drop]
  omega

theorem writeSeg_take {α : Type} (v : List α) (c : ℕ) (seg : List α)
    (h : c + seg.length ≤ v.length) :
    (writeSeg v c seg).take (c + seg.length) = v.take c ++ seg := by
  have h1 : c + seg.length = (v.take c ++ seg).length := by
    simp only [List.length_append, List.length_take]; omega
  rw [writeSeg, h1, List.take_left]

theorem writeSeg_drop {α : Type} (v : List α) (c : ℕ) (seg : List α)
    (h : c + seg.length ≤ v.length) :
    (writeSeg v c seg).drop (c + seg.length) = v.drop (c + seg.length) := by
  have h1 : c + seg.length = (v.take c ++ seg).length := by
    simp only [List.length_append, List.length_take]; omega
  conv_lhs => rw [writeSeg, h1, List.drop_left]
  rw [← h1]

theorem writeSeg_drop_ge {α : Type} (v : List α) (c : ℕ) (seg : List α) (n : ℕ)
    (h : c + seg.length ≤ v.length) (hn : c + seg.length ≤ n) :
    (writeSeg v c seg).drop n = v.drop n := by
  have hk : n = (c + seg.length) + (n - (c + seg.length)) := by omega
  rw [hk, ← List.drop_drop, writeSeg_drop _ _ _ h, List.drop_drop]

/-! ## Single shots

`SingleShot.cpp` is not part of the source under study; the fields and the
flat layout below are modelled from the specification. -/

/-- Modelled from the spec: a single-shot problem owns `(startPos, startVel)`
vectors in the representation mapping, a force matrix with one column per
timestep, an optional mass-tuning block, and a flag `tuneStartingState`
(spec §3, §4.4). `forces` is the list of per-timestep force columns. -/
structure SingleShot where
  startPos : Vec
  startVel : Vec
  forces : List Vec
  massParams : Vec
  tuneStartingState : Bool

/-- Modelled from the spec: the flat variable layout of a single shot is
`[start pos; start vel]` (only when `tuneStartingState`), then the force
column of each timestep, then the mass-tuning block (spec §4.4). -/
def SingleShot.getFlatProblemDim (s : SingleShot) : ℕ :=
  (if s.tuneStartingState then s.startPos.length + s.startVel.length else 0)
    + (s.forces.map List.length).sum + s.massParams.length

/-- Modelled from the spec: `SingleShot::flatten` copies the fields out as
contiguous segments in the layout order (spec §4.4). -/
def SingleShot.flatten (s : SingleShot) : Vec :=
  (if s.tuneStartingState then s.startPos ++ s.startVel else [])
    ++ s.forces.flatten ++ s.massParams

/-- Modelled from the spec: `SingleShot::unflatten` copies contiguous
segments of the flat vector back into the fields, using the stored
dimensions of each field (spec §4.4). -/
def SingleShot.unflatten (s : SingleShot) (x : Vec) : SingleShot :=
  if s.tuneStartingState then
    let pLen := s.startPos.length
    let vLen := s.startVel.length
    let rest := x.drop (pLen + vLen)
    { s with
      startPos := x.take pLen
      startVel := (x.drop pLen).take vLen
      forces := chunks (s.forces.map List.length) rest
      massParams :=
        (rest.drop (s.forces.map List.length).sum).take s.massParams.length }
  else
    { s with
      forces := chunks (s.forces.map List.length) x
      massParams :=
        (x.drop (s.forces.map List.length).sum).take s.massParams.length }

theorem SingleShot.length_flatten (s : SingleShot) :
    s.flatten.length = s.getFlatProblemDim := by
  simp only [flatten, getFlatProblemDim, List.length_append, List.length_flatten]
  cases s.tuneStartingState <;> simp [List.length_append]

theorem SingleShot.flatten_unflatten (s : SingleShot) (x : Vec)
    (h : x.length = s.getFlatProblemDim) :
    (s.unflatten x).flatten = x := by
  unfold getFlatProblemDim at h
  cases htune : s.tuneStartingState with
  | false =>
    simp only [htune, Bool.false_eq_true, if_false] at h
    simp only [unflatten, htune, Bool.false_eq_true, if_false, flatten]
    rw [chunks_flatten _ _ (by omega)]
    have hm : (x.drop (s.forces.map List.length).sum).take s.massParams.length
        = x.drop (s.forces.map List.length).sum := by
      have : s.massParams.length = (x.drop (s.forces.map List.length).sum).length := by
        simp only [List.length_drop]; omega
      rw [this, List.take_length]
    rw [hm, List.nil_append, List.take_append_drop]
  | true =>
    simp only [htune, if_true] at h
    simp only [unflatten, htune, if_true, flatten]
    rw [chunks_flatten _ _ (by simp only [List.length_drop]; omega)]
    have hm : ((x.drop (s.startPos.length + s.startVel.length)).drop
            (s.forces.map List.length).sum).take s.massParams.length
        = (x.drop (s.startPos.length + s.startVel.length)).drop
            (s.forces.map List.length).sum := by
      have : s.massParams.length
          = ((x.drop (s.startPos.length + s.startVel.length)).drop
              (s.forces.map List.length).sum).length := by
        simp only [List.length_drop]; omega
      rw [this, List.take_length]
    rw [hm, List.append_assoc, List.take_append_drop]
    have h2 : x.drop (s.startPos.length + s.startVel.length)
        = (x.drop s.startPos.length).drop s.startVel.length := by
      rw [List.drop_drop, Nat.add_comm]
    rw [h2, List.append_assoc, List.take_append_drop, List.take_append_drop]

theorem SingleShot.unflatten_dim (s : SingleShot) (x : Vec)
    (h : x.length = s.getFlatProblemDim) :
    (s.unflatten x).getFlatProblemDim = s.getFlatProblemDim := by
  have := s.length_flatten
  unfold getFlatProblemDim at h ⊢
  cases htune : s.tuneStartingState with
  | false =>
    simp only [htune, Bool.false_eq_true, if_false] at h
    simp only [unflatten, htune, Bool.false_eq_true, if_false]
    rw [chunks_sizes _ _ (by omega)]
    simp only [List.length_take, List.length_drop]
    omega
  | true =>
    simp only [htune, if_true] at h
    simp only [unflatten, htune, if_true]
    rw [chunks_sizes _ _ (by simp only [List.length_drop]; omega)]
    simp only [List.length_take, List.length_drop]
    omega

/-! ## Multi-shot flattening (`MultiShot::flatten` / `MultiShot::unflatten`)

The multi-shot problem keeps an ordered list `mShots` of single shots.  Its
flat dimension, `flatten` and `unflatten` route through the sub-shots with a
running cursor, exactly as in the source. -/

/-- `MultiShot::getFlatProblemDim`: the sum of the sub-shots' flat sizes. -/
def MultiShot.getFlatProblemDim (shots : List SingleShot) : ℕ :=
  (shots.map SingleShot.getFlatProblemDim).sum

/-- `MultiShot::unflatten`: each shot unflattens its own segment of the flat
vector; the cursor advances by `shot->getFlatProblemDim()`. -/
def MultiShot.unflatten : List SingleShot → Vec → List SingleShot
  | [], _ => []
  | s :: rest, x =>
      s.unflatten (x.take s.getFlatProblemDim)
        :: MultiShot.unflatten rest (x.drop s.getFlatProblemDim)

/-- `MultiShot::flatten`: each shot writes its flat segment into the output
buffer at the running cursor (`flat.segment(cursor, dim)`). -/
def MultiShot.flattenInto : List SingleShot → Vec → ℕ → Vec
  | [], flat, _ => flat
  | s :: rest, flat, cursor =>
      MultiShot.flattenInto rest (writeSeg flat cursor s.flatten)
        (cursor + s.getFlatProblemDim)

theorem MultiShot.flattenInto_eq (shots : List SingleShot) :
    ∀ (flat : Vec) (cursor : ℕ),
      cursor + MultiShot.getFlatProblemDim shots ≤ flat.length →
      MultiShot.flattenInto shots flat cursor
        = flat.take cursor ++ (shots.map SingleShot.flatten).flatten
            ++ flat.drop (cursor + MultiShot.getFlatProblemDim shots) := by
  induction shots with
  | nil =>
    intro flat cursor h
    simp [flattenInto, getFlatProblemDim, List.take_append_drop]
  | cons s rest ih =>
    intro flat cursor h
    simp only [getFlatProblemDim, List.map_cons, List.sum_cons] at h
    simp only [flattenInto, List.map_cons, List.flatten_cons]
    have hfl := s.length_flatten
    have hseg : cursor + s.flatten.length ≤ flat.length := by rw [hfl]; omega
    rw [ih _ _ (by
      rw [length_writeSeg _ _ _ hseg]
      simp only [getFlatProblemDim]
      omega)]
    have hc : (writeSeg flat cursor s.flatten).take (cursor + s.getFlatProblemDim)
        = flat.take cursor ++ s.flatten := by
      rw [← hfl]; exact writeSeg_take flat cursor s.flatten hseg
    have hd : (writeSeg flat cursor s.flatten).drop
          (cursor + s.getFlatProblemDim + MultiShot.getFlatProblemDim rest)
        = flat.drop
          (cursor + s.getFlatProblemDim + MultiShot.getFlatProblemDim rest) := by
      exact writeSeg_drop_ge flat cursor s.flatten _ hseg (by rw [hfl]; omega)
    rw [hc, hd]
    simp only [getFlatProblemDim, List.map_cons, List.sum_cons,
      List.append_assoc, Nat.add_assoc]

theorem MultiShot.unflatten_flatten_pieces (shots : List SingleShot) :
    ∀ (x : Vec), x.length = MultiShot.getFlatProblemDim shots →
      ((MultiShot.unflatten shots x).map SingleShot.flatten).flatten = x := by
  induction shots with
  | nil => intro x h; simp [getFlatProblemDim] at h; simp [unflatten, h]
  | cons s rest ih =>
    intro x h
    simp only [getFlatProblemDim, List.map_cons, List.sum_cons] at h
    simp only [unflatten, List.map_cons, List.flatten_cons]
    have hlen : (x.take s.getFlatProblemDim).length = s.getFlatProblemDim := by
      simp only [List.length_take]; omega
    rw [s.flatten_unflatten _ hlen]
    rw [ih (x.drop s.getFlatProblemDim) (by simp only [List.length_drop, getFlatProblemDim]; omega)]
    exact List.take_append_drop _ _

theorem MultiShot.unflattenDimEq (shots : List SingleShot) :
    ∀ (x : Vec), x.length = MultiShot.getFlatProblemDim shots →
      MultiShot.getFlatProblemDim (MultiShot.unflatten shots x)
        = MultiShot.getFlatProblemDim shots := by
  induction shots with
  | nil => intro x _; simp [unflatten]
  | cons s rest ih =>
    intro x h
    simp only [getFlatProblemDim, List.map_cons, List.sum_cons] at h ⊢
    simp only [unflatten, List.map_cons, List.sum_cons]
    have hlen : (x.take s.getFlatProblemDim).length = s.getFlatProblemDim := by
      simp only [List.length_take]; omega
    rw [s.unflatten_dim _ hlen]
    have := ih (x.drop s.getFlatProblemDim)
      (by simp only [List.length_drop, getFlatProblemDim]; omega)
    rw [getFlatProblemDim, getFlatProblemDim] at this
    rw [this]

/-- C1: for every multi-shot problem and every flat vector `x` whose length
equals the problem's flat dimension, `unflatten(x)` followed by `flatten`
into an output buffer of the same length reproduces `x` exactly: each
sub-shot's segment is copied back out at the same cursor offsets that
`unflatten` read it from. -/
theorem C1_flatten_unflatten_roundtrip (shots : List SingleShot) (x flat0 : Vec)
    (hx : x.length = MultiShot.getFlatProblemDim shots)
    (hbuf : flat0.length = MultiShot.getFlatProblemDim shots) :
    MultiShot.flattenInto (MultiShot.unflatten shots x) flat0 0 = x := by
  have hdim := MultiShot.unflattenDimEq shots x hx
  rw [MultiShot.flattenInto_eq _ _ _ (by rw [hdim]; omega)]
  rw [MultiShot.unflatten_flatten_pieces shots x hx]
  rw [List.take_zero, Nat.zero_add, hdim,
    List.drop_of_length_le (le_of_eq hbuf), List.nil_append, List.append_nil]

/-! ## Knot-point constraints (`MultiShot::computeConstraints` and the
constraint bounds)

`AbstractShot::computeConstraints` and the shot-level state getters live
outside the source under study; the parent constraint vector and the
per-shot final state are therefore abstract parameters.  `getStartState`
is the concatenation `(startPos, startVel)` (the source comment on
`MultiShot::getStartState` states this, and `SingleShot` is modelled from
the spec). -/

/-- Modelled from the spec: `getStartState` returns the concatenation of
start position and start velocity. -/
def SingleShot.getStartState (s : SingleShot) : Vec := s.startPos ++ s.startVel

/-- Entrywise subtraction of two vectors of equal length. -/
def vsub (a b : Vec) : Vec := List.zipWith (fun x y => x - y) a b

/-- The knot defects, in loop order `i = 1 .. N-1`:
`mShots[i-1]->getFinalState(world) - mShots[i]->getStartState()`.
`finalState` abstracts the simulation-dependent
`SingleShot::getFinalState`. -/
def MultiShot.knotDefects (finalState : SingleShot → Vec) :
    List SingleShot → List Vec
  | [] => []
  | [_] => []
  | a :: b :: rest =>
      vsub (finalState a) b.getStartState
        :: MultiShot.knotDefects finalState (b :: rest)

/-- The knot-constraint loop of `MultiShot::computeConstraints`: writes each
defect at the running cursor, advancing by `stateDim` each iteration. -/
def MultiShot.ccKnots (stateDim : ℕ) (finalState : SingleShot → Vec) :
    List SingleShot → Vec → ℕ → Vec
  | [], buf, _ => buf
  | [_], buf, _ => buf
  | a :: b :: rest, buf, cursor =>
      MultiShot.ccKnots stateDim finalState (b :: rest)
        (writeSeg buf cursor (vsub (finalState a) b.getStartState))
        (cursor + stateDim)

/-- `MultiShot::computeConstraints`: the parent constraints are written into
`constraints.segment(0, numParentConstraints)`, then one defect per adjacent
shot pair.  `parent` abstracts the output of
`AbstractShot::computeConstraints`. -/
def MultiShot.computeConstraints (stateDim : ℕ) (parent : Vec)
    (finalState : SingleShot → Vec) (shots : List SingleShot) (buf : Vec) : Vec :=
  MultiShot.ccKnots stateDim finalState shots (writeSeg buf 0 parent) parent.length

/-- `MultiShot::getConstraintUpperBounds`: `flat.setZero()` followed by the
parent bounds written into `flat.segment(0, parentDim)`.  `parentUB`
abstracts the output of `AbstractShot::getConstraintUpperBounds`. -/
def MultiShot.getConstraintUpperBounds (parentUB : Vec) (buf : Vec) : Vec :=
  writeSeg (List.replicate buf.length 0) 0 parentUB

/-- `MultiShot::getConstraintLowerBounds`: same shape as the upper bounds. -/
def MultiShot.getConstraintLowerBounds (parentLB : Vec) (buf : Vec) : Vec :=
  writeSeg (List.replicate buf.length 0) 0 parentLB

theorem MultiShot.ccKnots_eq (stateDim : ℕ) (finalState : SingleShot → Vec) :
    ∀ (shots : List SingleShot) (buf : Vec) (cursor : ℕ),
      (∀ d ∈ MultiShot.knotDefects finalState shots, d.length = stateDim) →
      cursor + (MultiShot.knotDefects finalState shots).length * stateDim
          ≤ buf.length →
      MultiShot.ccKnots stateDim finalState shots buf cursor
        = buf.take cursor ++ (MultiShot.knotDefects finalState shots).flatten
            ++ buf.drop
              (cursor + (MultiShot.knotDefects finalState shots).length * stateDim) := by
  intro shots
  induction shots with
  | nil =>
    intro buf cursor _ _
    simp [ccKnots, knotDefects, List.take_append_drop]
  | cons a rest ih =>
    cases rest with
    | nil =>
      intro buf cursor _ _
      simp [ccKnots, knotDefects, List.take_append_drop]
    | cons b rest2 =>
      intro buf cursor hd hlen
      have hdefect : (vsub (finalState a) b.getStartState).length = stateDim :=
        hd _ (by simp [knotDefects])
      simp only [knotDefects, List.length_cons] at hlen
      simp only [ccKnots, knotDefects, List.flatten_cons]
      have hseg : cursor + (vsub (finalState a) b.getStartState).length
          ≤ buf.length := by rw [hdefect]; nlinarith [hlen]
      rw [ih _ _ (by
            intro d hdm
            exact hd d (by simp [knotDefects]; right; exact hdm))
          (by
            rw [length_writeSeg _ _ _ hseg]
            have : (cursor + stateDim)
                + (MultiShot.knotDefects finalState (b :: rest2)).length * stateDim
                = cursor
                  + ((MultiShot.knotDefects finalState (b :: rest2)).length + 1)
                    * stateDim := by ring
            rw [this]
            exact hlen)]
      have hc : (writeSeg buf cursor (vsub (finalState a) b.getStartState)).take
            (cursor + stateDim)
          = buf.take cursor ++ vsub (finalState a) b.getStartState := by
        rw [← hdefect]
        exact writeSeg_take buf cursor _ hseg
      have hrest : (cursor + stateDim)
          + (MultiShot.knotDefects finalState (b :: rest2)).length * stateDim
          = cursor
            + ((MultiShot.knotDefects finalState (b :: rest2)).length + 1)
              * stateDim := by ring
      have hdge : (writeSeg buf cursor (vsub (finalState a) b.getStartState)).drop
            ((cursor + stateDim)
              + (MultiShot.knotDefects finalState (b :: rest2)).length * stateDim)
          = buf.drop
            ((cursor + stateDim)
              + (MultiShot.knotDefects finalState (b :: rest2)).length * stateDim) := by
        exact writeSeg_drop_ge buf cursor _ _ hseg (by rw [hdefect]; omega)
      rw [hc, hdge, hrest]
      simp only [List.length_cons, List.append_assoc]

/-- C2: `computeConstraints` writes, after the parent entries, one
`stateDim`-vector per adjacent shot pair equal to
`finalState(shot_i) - startState(shot_{i+1})` in order, and both constraint
bound vectors are zero on every knot-defect entry, so the defects are
constrained to equal zero. -/
theorem C2_constraint_layout (stateDim : ℕ) (parent parentUB parentLB : Vec)
    (finalState : SingleShot → Vec) (shots : List SingleShot) (buf : Vec)
    (hd : ∀ d ∈ MultiShot.knotDefects finalState shots, d.length = stateDim)
    (hbuf : buf.length
      = parent.length + (MultiShot.knotDefects finalState shots).length * stateDim)
    (hub : parentUB.length = parent.length)
    (hlb : parentLB.length = parent.length) :
    MultiShot.computeConstraints stateDim parent finalState shots buf
        = parent ++ (MultiShot.knotDefects finalState shots).flatten
    ∧ MultiShot.getConstraintUpperBounds parentUB buf
        = parentUB
            ++ List.replicate
              ((MultiShot.knotDefects finalState shots).length * stateDim) 0
    ∧ MultiShot.getConstraintLowerBounds parentLB buf
        = parentLB
            ++ List.replicate
              ((MultiShot.knotDefects finalState shots).length * stateDim) 0 := by
  refine ⟨?_, ?_, ?_⟩
  · rw [MultiShot.computeConstraints]
    have hp : parent.length ≤ buf.length := by omega
    rw [MultiShot.ccKnots_eq stateDim finalState shots _ _ hd
      (by rw [length_writeSeg _ _ _ (by omega)]; omega)]
    have h0 : (0 : ℕ) + parent.length ≤ buf.length := by omega
    have hc : (writeSeg buf 0 parent).take parent.length = parent := by
      have := writeSeg_take buf 0 parent h0
      simpa using this
    have hdrop : (writeSeg buf 0 parent).drop
          (parent.length
            + (MultiShot.knotDefects finalState shots).length * stateDim)
        = [] := by
      apply List.drop_of_length_le
      rw [length_writeSeg _ _ _ (by omega)]
      omega
    rw [hc, hdrop, List.append_nil]
  · rw [MultiShot.getConstraintUpperBounds, writeSeg]
    rw [List.take_replicate, List.drop_replicate]
    have h1 : min 0 buf.length = 0 := by omega
    rw [h1, List.replicate_zero, List.nil_append]
    congr 1
    rw [hbuf, hub]
    congr 1
    omega
  · rw [MultiShot.getConstraintLowerBounds, writeSeg]
    rw [List.take_replicate, List.drop_replicate]
    have h1 : min 0 buf.length = 0 := by omega
    rw [h1, List.replicate_zero, List.nil_append]
    congr 1
    rw [hbuf, hlb]
    congr 1
    omega

/-- Witness for C2 on a concrete two-shot problem with one parent
constraint and `stateDim = 2`. -/
theorem C2_witness :
    MultiShot.computeConstraints 2 [(9 : ℚ)]
        SingleShot.getStartState
        [⟨[1], [2], [], [], true⟩, ⟨[3], [5], [], [], true⟩]
        [0, 0, 0]
      = [(9 : ℚ), -2, -3] := by
  have h := C2_constraint_layout 2 [(9 : ℚ)] [(7 : ℚ)] [(6 : ℚ)]
    SingleShot.getStartState
    [⟨[1], [2], [], [], true⟩, ⟨[3], [5], [], [], true⟩]
    [0, 0, 0] (by decide) (by decide) (by decide) (by decide)
  rw [h.1]
  simp only [MultiShot.knotDefects, SingleShot.getStartState, vsub,
    List.nil_append, List.append_nil, List.zipWith_cons_cons, List.zipWith_nil_right,
    List.flatten_cons, List.flatten_nil, List.cons_append]
  norm_num

/-! ## Jacobian non-zero count (`MultiShot::getNumberNonZeroJacobian`) -/

/-- `MultiShot::getNumberNonZeroJacobian`: starts from the parent problem's
count and, for each of the first `N-1` shots (`i = 0 .. mShots.size()-2`),
adds the main Jacobian block `shotDim * stateDim` and the `-I` block
`stateDim`.  `parentNNZ` abstracts
`AbstractShot::getNumberNonZeroJacobian`. -/
def MultiShot.getNumberNonZeroJacobian (parentNNZ stateDim : ℕ)
    (shots : List SingleShot) : ℕ :=
  shots.dropLast.foldl
    (fun nnzj s => nnzj + s.getFlatProblemDim * stateDim + stateDim) parentNNZ

theorem foldl_add_map (f : SingleShot → ℕ) :
    ∀ (l : List SingleShot) (init : ℕ),
      l.foldl (fun acc s => acc + f s) init = init + (l.map f).sum := by
  intro l
  induction l with
  | nil => intro init; simp
  | cons s rest ih =>
    intro init
    simp only [List.foldl_cons, List.map_cons, List.sum_cons]
    rw [ih]
    omega

/-- C4: the non-zero count equals the parent count plus, summed over the
`N-1` adjacent shot pairs, `flatDim_i * stateDim + stateDim` where
`flatDim_i` is the flat dimension of the earlier shot of the pair (the
first `N-1` shots, i.e. `dropLast`). -/
theorem C4_nnz_count (parentNNZ stateDim : ℕ) (shots : List SingleShot) :
    MultiShot.getNumberNonZeroJacobian parentNNZ stateDim shots
      = parentNNZ
        + (shots.dropLast.map
            (fun s => s.getFlatProblemDim * stateDim + stateDim)).sum := by
  rw [MultiShot.getNumberNonZeroJacobian]
  have h := foldl_add_map (fun s => s.getFlatProblemDim * stateDim + stateDim)
    shots.dropLast parentNNZ
  rw [← h]
  congr 1
  funext acc s
  omega

/-! ## Construction (`MultiShot::MultiShot`)

The constructor loop `while (stepsRemaining > 0)` peels off
`min(shotLength, stepsRemaining)` steps per shot and passes
`!isFirst || tuneStartingState` as the sub-shot's tune flag.  Each shot is
recorded here as its `(steps, tuneStartingState)` pair.  The loop is given
`steps` units of fuel; when `shotLength ≥ 1` every iteration consumes at
least one remaining step, so the fuel is never exhausted. -/

def MultiShot.constructLoop (shotLength : ℕ) (tune : Bool) :
    ℕ → ℕ → Bool → List (ℕ × Bool)
  | 0, _, _ => []
  | _ + 1, 0, _ => []
  | fuel + 1, rem + 1, isFirst =>
      let shot := min shotLength (rem + 1)
      (shot, !isFirst || tune)
        :: MultiShot.constructLoop shotLength tune fuel (rem + 1 - shot) false

/-- `MultiShot::MultiShot`: the list of `(steps, tuneStartingState)` pairs of
the constructed sub-shots. -/
def MultiShot.construct (steps shotLength : ℕ) (tune : Bool) : List (ℕ × Bool) :=
  MultiShot.constructLoop shotLength tune steps steps true

theorem MultiShot.constructLoop_zero (shotLength : ℕ) (tune : Bool)
    (fuel : ℕ) (first : Bool) :
    MultiShot.constructLoop shotLength tune fuel 0 first = [] := by
  cases fuel <;> simp [constructLoop]

theorem MultiShot.constructLoop_spec (shotLength : ℕ) (tune : Bool)
    (hL : 1 ≤ shotLength) :
    ∀ (rem : ℕ), 1 ≤ rem → ∀ (fuel : ℕ) (first : Bool), rem ≤ fuel →
      (MultiShot.constructLoop shotLength tune fuel rem first).map Prod.fst
          = List.replicate ((rem + shotLength - 1) / shotLength - 1) shotLength
            ++ [rem - ((rem + shotLength - 1) / shotLength - 1) * shotLength]
        ∧ (MultiShot.constructLoop shotLength tune fuel rem first).map Prod.snd
          = (!first || tune)
            :: List.replicate ((rem + shotLength - 1) / shotLength - 1) true := by
  intro rem
  induction rem using Nat.strong_induction_on with
  | _ rem ih =>
    intro hrem fuel first hfuel
    obtain ⟨r, rfl⟩ : ∃ r, rem = r + 1 := ⟨rem - 1, by omega⟩
    obtain ⟨f, rfl⟩ : ∃ f, fuel = f + 1 := ⟨fuel - 1, by omega⟩
    simp only [constructLoop]
    by_cases hle : r + 1 ≤ shotLength
    · have hshot : min shotLength (r + 1) = r + 1 := min_eq_right hle
      have hk : (r + 1 + shotLength - 1) / shotLength = 1 := by
        have h1 : r + 1 + shotLength - 1 = r + shotLength := by omega
        rw [h1, Nat.add_div_right _ (by omega), Nat.div_eq_of_lt (by omega)]
      rw [hshot, hk]
      simp [Nat.sub_self, MultiShot.constructLoop_zero]
    · have hshot : min shotLength (r + 1) = shotLength :=
        min_eq_left (by omega)
      rw [hshot]
      have hrem1 : 1 ≤ r + 1 - shotLength := by omega
      have hlt : r + 1 - shotLength < r + 1 := by omega
      have hfuel1 : r + 1 - shotLength ≤ f := by omega
      obtain ⟨ihf, ihs⟩ := ih (r + 1 - shotLength) hlt hrem1 f false hfuel1
      have hkk : r + 1 - shotLength + shotLength - 1 = r := by omega
      rw [hkk] at ihf ihs
      have hk : (r + 1 + shotLength - 1) / shotLength = r / shotLength + 1 := by
        have h1 : r + 1 + shotLength - 1 = r + shotLength := by omega
        rw [h1, Nat.add_div_right _ (by omega)]
      have hk1 : 1 ≤ r / shotLength :=
        (Nat.one_le_div_iff (by omega)).mpr (by omega)
      rw [hk]
      constructor
      · simp only [List.map_cons, ihf]
        have hrep : List.replicate (r / shotLength + 1 - 1) shotLength
            = shotLength :: List.replicate (r / shotLength - 1) shotLength := by
          have h2 : r / shotLength + 1 - 1 = (r / shotLength - 1) + 1 := by omega
          rw [h2, List.replicate_succ]
        rw [hrep, List.cons_append]
        have hmul : (r / shotLength + 1 - 1) * shotLength
            = (r / shotLength - 1) * shotLength + shotLength := by
          have h2 : r / shotLength + 1 - 1 = (r / shotLength - 1) + 1 := by omega
          rw [h2, Nat.succ_mul]
        have hlast : r + 1 - shotLength - (r / shotLength - 1) * shotLength
            = r + 1 - (r / shotLength + 1 - 1) * shotLength := by
          rw [hmul]
          generalize (r / shotLength - 1) * shotLength = A
          omega
        rw [hlast]
      · simp only [List.map_cons, ihs]
        have h2 : r / shotLength + 1 - 1 = (r / shotLength - 1) + 1 := by omega
        rw [h2, List.replicate_succ]
        simp

/-- C5: for `totalSteps ≥ 1` and `shotLength ≥ 1` the constructor produces
exactly `⌈totalSteps / shotLength⌉` sub-shots, with step counts
`[shotLength, …, shotLength, remainder]` summing to `totalSteps`; the first
shot's tune flag equals the user-supplied flag and every later shot's flag
is forced to `true`. -/
theorem C5_construction (steps shotLength : ℕ) (tune : Bool)
    (hsteps : 1 ≤ steps) (hL : 1 ≤ shotLength) :
    (MultiShot.construct steps shotLength tune).length
        = (steps + shotLength - 1) / shotLength
    ∧ (MultiShot.construct steps shotLength tune).map Prod.fst
        = List.replicate ((steps + shotLength - 1) / shotLength - 1) shotLength
          ++ [steps - ((steps + shotLength - 1) / shotLength - 1) * shotLength]
    ∧ ((MultiShot.construct steps shotLength tune).map Prod.fst).sum = steps
    ∧ (MultiShot.construct steps shotLength tune).map Prod.snd
        = tune
          :: List.replicate ((steps + shotLength - 1) / shotLength - 1) true := by
  obtain ⟨hf, hs⟩ := MultiShot.constructLoop_spec shotLength tune hL steps hsteps
    steps true (le_refl steps)
  have hk1 : 1 ≤ (steps + shotLength - 1) / shotLength :=
    (Nat.one_le_div_iff (by omega)).mpr (by omega)
  have hklast : ((steps + shotLength - 1) / shotLength - 1) * shotLength
      ≤ steps - 1 := by
    have h1 : (steps + shotLength - 1) / shotLength
        = (steps - 1) / shotLength + 1 := by
      have h2 : steps + shotLength - 1 = (steps - 1) + shotLength := by omega
      rw [h2, Nat.add_div_right _ (by omega)]
    rw [h1]
    simp only [Nat.add_sub_cancel]
    exact Nat.div_mul_le_self _ _
  unfold MultiShot.construct
  refine ⟨?_, hf, ?_, ?_⟩
  · have hlen := congrArg List.length hf
    rw [List.length_map] at hlen
    rw [hlen]
    simp only [List.length_append, List.length_replicate, List.length_cons,
      List.length_nil]
    omega
  · rw [hf]
    rw [List.sum_append, List.sum_replicate, List.sum_cons, List.sum_nil,
      smul_eq_mul]
    generalize hA : ((steps + shotLength - 1) / shotLength - 1) * shotLength = A
    rw [hA] at hklast
    omega
  · rw [hs]
    simp

/-- Witness for C5: 5 steps with shot length 2 yield shots of sizes
`[2, 2, 1]` with tune flags `[false, true, true]`. -/
theorem C5_witness :
    (MultiShot.construct 5 2 false).length = 3
    ∧ (MultiShot.construct 5 2 false).map Prod.fst = [2, 2, 1]
    ∧ ((MultiShot.construct 5 2 false).map Prod.fst).sum = 5
    ∧ (MultiShot.construct 5 2 false).map Prod.snd = [false, true, true] := by
  obtain ⟨h1, h2, h3, h4⟩ := C5_construction 5 2 false (by decide) (by decide)
  refine ⟨by rw [h1], by rw [h2]; decide, by rw [h3], by rw [h4]; decide⟩

/-- Witness for C1 on a concrete two-shot problem. -/
theorem C1_witness :
    ([(4 : ℚ), 5, 6, 7, 8, 9].length
        = Traj.MultiShot.getFlatProblemDim
            [⟨[0], [0], [[0], [0]], [], true⟩, ⟨[0], [0], [[0]], [0], false⟩])
    ∧ MultiShot.flattenInto
        (MultiShot.unflatten
          [⟨[0], [0], [[0], [0]], [], true⟩, ⟨[0], [0], [[0]], [0], false⟩]
          [(4 : ℚ), 5, 6, 7, 8, 9])
        [0, 0, 0, 0, 0, 0] 0
      = [(4 : ℚ), 5, 6, 7, 8, 9] :=
  ⟨by decide, C1_flatten_unflatten_roundtrip
    [⟨[0], [0], [[0], [0]], [], true⟩, ⟨[0], [0], [[0]], [0], false⟩]
    [(4 : ℚ), 5, 6, 7, 8, 9] [0, 0, 0, 0, 0, 0] (by decide) (by decide)⟩

/-! ## State reconstruction without knots (`MultiShot::getStates`,
`useKnots = false`)

The simulator is consumed only through the interface of spec §6; it is
embedded as an abstract state type with the operations the loop uses. -/

/-- The simulator interface (spec §6): get/set positions, velocities and
forces, and step one tick. -/
structure WorldModel (S : Type) where
  setPositions : S → Vec → S
  setVelocities : S → Vec → S
  setForces : S → Vec → S
  step : S → S
  getPositions : S → Vec
  getVelocities : S → Vec

/-- The inner loop body of the `useKnots = false` branch, over a list of
force columns: set the force column, step the world once, and record the
resulting position, velocity and the applied force. -/
def runSteps {S : Type} (W : WorldModel S) :
    List Vec → S → List (Vec × Vec × Vec) × S
  | [], w => ([], w)
  | f :: rest, w =>
      let w1 := W.step (W.setForces w f)
      let out := runSteps W rest w1
      ((W.getPositions w1, W.getVelocities w1, f) :: out.1, out.2)

/-- The nested loop of the `useKnots = false` branch: the shots in order,
each shot's stored force columns in order. -/
def runShots {S : Type} (W : WorldModel S) :
    List SingleShot → S → List (Vec × Vec × Vec) × S
  | [], w => ([], w)
  | s :: rest, w =>
      let out1 := runSteps W s.forces w
      let out2 := runShots W rest out1.2
      (out1.1 ++ out2.1, out2.2)

/-- `MultiShot::getStates` with `useKnots = false`: a `RestorableSnapshot`
is taken, the world is set to the first shot's stored start position and
velocity only, every shot's stored forces are replayed in order, and the
snapshot is restored at the end (the second component is the world state
handed back to the caller).  The first shot is a separate argument because
the source reads `mShots[0]` unconditionally (the constructor guarantees at
least one shot). -/
def MultiShot.getStatesNoKnots {S : Type} (W : WorldModel S)
    (first : SingleShot) (rest : List SingleShot) (w0 : S) :
    List (Vec × Vec × Vec) × S :=
  let w1 := W.setVelocities (W.setPositions w0 first.startPos) first.startVel
  let out := runShots W (first :: rest) w1
  (out.1, w0)

/-- One monolithic continuous simulation: start from `(startPos, startVel)`
and replay one concatenated list of force columns. -/
def monolithicStates {S : Type} (W : WorldModel S)
    (startPos startVel : Vec) (forceCols : List Vec) (w0 : S) :
    List (Vec × Vec × Vec) :=
  (runSteps W forceCols
    (W.setVelocities (W.setPositions w0 startPos) startVel)).1

theorem runSteps_append {S : Type} (W : WorldModel S) :
    ∀ (a b : List Vec) (w : S),
      runSteps W (a ++ b) w
        = ((runSteps W a w).1 ++ (runSteps W b (runSteps W a w).2).1,
           (runSteps W b (runSteps W a w).2).2) := by
  intro a
  induction a with
  | nil => intro b w; simp [runSteps]
  | cons f a ih =>
    intro b w
    simp only [List.cons_append, runSteps, List.append_eq, ih, List.cons_append]

theorem runShots_eq_runSteps {S : Type} (W : WorldModel S) :
    ∀ (shots : List SingleShot) (w : S),
      runShots W shots w
        = runSteps W ((shots.map SingleShot.forces).flatten) w := by
  intro shots
  induction shots with
  | nil => intro w; simp [runShots, runSteps]
  | cons s rest ih =>
    intro w
    simp only [runShots, List.map_cons, List.flatten_cons, runSteps_append, ih]

/-- C6: the `useKnots = false` reconstruction sets the world to the first
shot's stored start position and velocity only, replays every shot's stored
force column in order through single steps recording position, velocity and
the applied force, and therefore equals one monolithic continuous
simulation driven by the concatenated forces from the first shot's start
state; the world state is restored afterwards. -/
theorem C6_states_without_knots {S : Type} (W : WorldModel S)
    (first : SingleShot) (rest : List SingleShot) (w0 : S) :
    (MultiShot.getStatesNoKnots W first rest w0).1
        = monolithicStates W first.startPos first.startVel
            (((first :: rest).map SingleShot.forces).flatten) w0
    ∧ (MultiShot.getStatesNoKnots W first rest w0).2 = w0 := by
  constructor
  · rw [MultiShot.getStatesNoKnots, monolithicStates, runShots_eq_runSteps]
  · rfl

/-! ## Rollout buffers (`TrajectoryRollout.cpp`)

`TrajectoryRolloutReal` owns per-mapping pose/velocity/force matrices, a
mass vector and a metadata map; `TrajectoryRolloutRef` and
`TrajectoryRolloutConstRef` are `(start, len)` column slices over a backing
rollout.  The string-keyed `std::unordered_map`s are embedded as
association lists; `unordered_map::at` on a missing key (which throws) and
the `assert(false)` stubs of the const slice are both embedded as `none`. -/

/-- The three dimensions of a registered mapping (spec §3). -/
structure MappingDims where
  posDim : ℕ
  velDim : ℕ
  forceDim : ℕ

/-- Association-list lookup, standing in for `unordered_map` key lookup. -/
def lookupKey {α : Type} : List (String × α) → String → Option α
  | [], _ => none
  | (k0, v) :: rest, k => if k0 = k then some v else lookupKey rest k

/-- `unordered_map::operator[] =`: replace the value at the key, or append
the pair when the key is absent. -/
def updKey {α : Type} : List (String × α) → String → α → List (String × α)
  | [], k, v => [(k, v)]
  | (k0, v0) :: rest, k, v =>
      if k0 = k then (k, v) :: rest else (k0, v0) :: updKey rest k v

/-- An all-zero matrix with the given row and column counts
(`Eigen::MatrixXd::Zero(rows, cols)`), stored as columns. -/
def zeroMat (rows cols : ℕ) : Mat :=
  List.replicate cols (List.replicate rows 0)

/-- The state owned by a `TrajectoryRolloutReal`. -/
structure RolloutData where
  mPoses : List (String × Mat)
  mVels : List (String × Mat)
  mForces : List (String × Mat)
  mMasses : Vec
  mMetadata : List (String × Mat)
  mRepresentationMapping : String
  mMappings : List String

/-- `TrajectoryRolloutReal::TrajectoryRolloutReal(mappings, steps,
representationMapping, massDim, metadata)`: one all-zero matrix per
registered mapping for poses, velocities and forces, sized by the mapping's
dimensions and the step count, and an all-zero mass vector. -/
def TrajectoryRolloutReal.construct (mappings : List (String × MappingDims))
    (steps : ℕ) (representationMapping : String) (massDim : ℕ)
    (metadata : List (String × Mat)) : RolloutData :=
  { mPoses := mappings.map (fun p => (p.1, zeroMat p.2.posDim steps))
    mVels := mappings.map (fun p => (p.1, zeroMat p.2.velDim steps))
    mForces := mappings.map (fun p => (p.1, zeroMat p.2.forceDim steps))
    mMasses := List.replicate massDim 0
    mMetadata := metadata
    mRepresentationMapping := representationMapping
    mMappings := mappings.map Prod.fst }

/-- `TrajectoryRolloutReal::getMetadata`: a missing key returns
`Eigen::MatrixXd::Zero(0, 0)` and emits a diagnostic listing the keys that
do exist; a present key returns the stored matrix.  The method is `const`,
so the third component is the (unchanged) metadata map after the call. -/
def RolloutData.getMetadata (d : RolloutData) (key : String) :
    Mat × List String × List (String × Mat) :=
  match lookupKey d.mMetadata key with
  | none => (zeroMat 0 0, d.mMetadata.map Prod.fst, d.mMetadata)
  | some v => (v, [], d.mMetadata)

/-- Columns `[start, start + len)` of a matrix
(`M.block(0, start, M.rows(), len)`). -/
def blockCols (M : Mat) (start len : ℕ) : Mat := (M.drop start).take len

/-- The tagged sum of the three rollout variants: owning
(`TrajectoryRolloutReal`), mutable slice (`TrajectoryRolloutRef`) and const
slice (`TrajectoryRolloutConstRef`), each slice holding its backing rollout
and `(start, len)`. -/
inductive Rollout where
  | real : RolloutData → Rollout
  | ref : Rollout → ℕ → ℕ → Rollout
  | constRef : Rollout → ℕ → ℕ → Rollout

/-- The mutable accessor `getPoses`: the owning variant looks the mapping
up, the mutable slice takes the column block of the backing rollout, and
the const slice hits `assert(false)` — a contract violation embedded as
`none`. -/
def Rollout.getPoses : Rollout → String → Option Mat
  | .real d, m => lookupKey d.mPoses m
  | .ref r start len, m => (r.getPoses m).map (fun M => blockCols M start len)
  | .constRef _ _ _, _ => none

/-- The mutable accessor `getVels` (same shape as `getPoses`). -/
def Rollout.getVels : Rollout → String → Option Mat
  | .real d, m => lookupKey d.mVels m
  | .ref r start len, m => (r.getVels m).map (fun M => blockCols M start len)
  | .constRef _ _ _, _ => none

/-- The mutable accessor `getForces` (same shape as `getPoses`). -/
def Rollout.getForces : Rollout → String → Option Mat
  | .real d, m => lookupKey d.mForces m
  | .ref r start len, m => (r.getForces m).map (fun M => blockCols M start len)
  | .constRef _ _ _, _ => none

/-- The mutable accessor `getMasses`: slices delegate to the backing
rollout; the const slice hits `assert(false)`. -/
def Rollout.getMasses : Rollout → Option Vec
  | .real d => some d.mMasses
  | .ref r _ _ => r.getMasses
  | .constRef _ _ _ => none

/-- `setMetadata`: the owning variant updates the metadata map, the mutable
slice delegates to the backing rollout, and the const slice hits
`assert(false)`. -/
def Rollout.setMetadata : Rollout → String → Mat → Option Rollout
  | .real d, k, v => some (.real { d with mMetadata := updKey d.mMetadata k v })
  | .ref r start len, k, v => (r.setMetadata k v).map (fun r2 => .ref r2 start len)
  | .constRef _ _ _, _, _ => none

/-- C8: every mutation entry point of a const-slice rollout —
`getPoses`, `getVels`, `getForces`, `getMasses` and `setMetadata` — is a
program-contract violation and never returns meaningful data, for every
backing rollout, slice bounds, mapping name and key/value argument. -/
theorem C8_const_slice_mutation (r : Rollout) (start len : ℕ)
    (mapping key : String) (value : Mat) :
    (Rollout.constRef r start len).getPoses mapping = none
    ∧ (Rollout.constRef r start len).getVels mapping = none
    ∧ (Rollout.constRef r start len).getForces mapping = none
    ∧ (Rollout.constRef r start len).getMasses = none
    ∧ (Rollout.constRef r start len).setMetadata key value = none :=
  ⟨rfl, rfl, rfl, rfl, rfl⟩

/-- C9: on an owning rollout, `getMetadata` of a missing key returns a zero
matrix together with a diagnostic listing the keys that do exist, leaving
the metadata map unchanged; a present key returns the stored matrix. -/
theorem C9_metadata_lookup (d : RolloutData) (key : String) :
    (lookupKey d.mMetadata key = none →
      d.getMetadata key = (zeroMat 0 0, d.mMetadata.map Prod.fst, d.mMetadata))
    ∧ (∀ v, lookupKey d.mMetadata key = some v →
      d.getMetadata key = (v, [], d.mMetadata)) := by
  constructor
  · intro h
    rw [RolloutData.getMetadata, h]
  · intro v h
    rw [RolloutData.getMetadata, h]

/-- Witness for C9 on a one-entry metadata map, exercising both the missing
and the present key. -/
theorem C9_witness :
    (RolloutData.getMetadata ⟨[], [], [], [], [("mass", [[2]])], "identity", []⟩ "vel"
        = (zeroMat 0 0, ["mass"], [("mass", [[2]])]))
    ∧ (RolloutData.getMetadata ⟨[], [], [], [], [("mass", [[2]])], "identity", []⟩ "mass"
        = ([[2]], [], [("mass", [[2]])])) :=
  ⟨(C9_metadata_lookup ⟨[], [], [], [], [("mass", [[2]])], "identity", []⟩ "vel").1
      (by decide),
   (C9_metadata_lookup ⟨[], [], [], [], [("mass", [[2]])], "identity", []⟩ "mass").2
      [[2]] (by decide)⟩

/-- C10: a freshly constructed owning rollout holds, for every registered
mapping, all-zero pose/velocity/force matrices with row counts
`posDim/velDim/forceDim` and exactly `steps` columns each — so every matrix
shares the same column count — and an all-zero mass vector of length
`massDim`. -/
theorem C10_fresh_rollout (mappings : List (String × MappingDims)) (steps : ℕ)
    (representationMapping : String) (massDim : ℕ) (metadata : List (String × Mat)) :
    (∀ p ∈ mappings,
        (p.1, zeroMat p.2.posDim steps)
            ∈ (TrajectoryRolloutReal.construct mappings steps
                representationMapping massDim metadata).mPoses
        ∧ (p.1, zeroMat p.2.velDim steps)
            ∈ (TrajectoryRolloutReal.construct mappings steps
                representationMapping massDim metadata).mVels
        ∧ (p.1, zeroMat p.2.forceDim steps)
            ∈ (TrajectoryRolloutReal.construct mappings steps
                representationMapping massDim metadata).mForces)
    ∧ (∀ q ∈ (TrajectoryRolloutReal.construct mappings steps
            representationMapping massDim metadata).mPoses
          ++ (TrajectoryRolloutReal.construct mappings steps
            representationMapping massDim metadata).mVels
          ++ (TrajectoryRolloutReal.construct mappings steps
            representationMapping massDim metadata).mForces,
        q.2.length = steps ∧ ∀ col ∈ q.2, ∀ x ∈ col, x = 0)
    ∧ (TrajectoryRolloutReal.construct mappings steps
          representationMapping massDim metadata).mMasses
        = List.replicate massDim 0 := by
  refine ⟨?_, ?_, rfl⟩
  · intro p hp
    exact ⟨List.mem_map_of_mem _ hp, List.mem_map_of_mem _ hp,
      List.mem_map_of_mem _ hp⟩
  · intro q hq
    have hzero : ∀ (rows : ℕ), (zeroMat rows steps).length = steps
        ∧ ∀ col ∈ zeroMat rows steps, ∀ x ∈ col, x = 0 := by
      intro rows
      constructor
      · simp [zeroMat]
      · intro col hcol x hx
        rw [List.eq_of_mem_replicate hcol] at hx
        exact List.eq_of_mem_replicate hx
    simp only [TrajectoryRolloutReal.construct, List.mem_append,
      List.mem_map] at hq
    rcases hq with (⟨p, _, rfl⟩ | ⟨p, _, rfl⟩) | ⟨p, _, rfl⟩
    · exact hzero p.2.posDim
    · exact hzero p.2.velDim
    · exact hzero p.2.forceDim

/-- Witness for C10 with one registered mapping of dimensions `(2, 2, 1)`
over three steps. -/
theorem C10_witness :
    (("identity", zeroMat 2 3)
        ∈ (TrajectoryRolloutReal.construct [("identity", ⟨2, 2, 1⟩)] 3
            "identity" 2 []).mPoses)
    ∧ (TrajectoryRolloutReal.construct [("identity", ⟨2, 2, 1⟩)] 3
          "identity" 2 []).mMasses = List.replicate 2 0 :=
  ⟨((C10_fresh_rollout [("identity", ⟨2, 2, 1⟩)] 3 "identity" 2 []).1
      ("identity", ⟨2, 2, 1⟩) (List.mem_singleton.mpr rfl)).1,
   (C10_fresh_rollout [("identity", ⟨2, 2, 1⟩)] 3 "identity" 2 []).2.2⟩

/-! ## Serial versus parallel assembly

Every per-shot output of the multi-shot problem (variable bounds, flat
gradient, sparse-Jacobian values, reconstructed rollout columns) is
assembled serially by the cursor loops of `MultiShot` — each shot writes
one contiguous segment at the running cursor.  The parallel mode is not
part of the source under study and is modelled from the specification:
each shot's block is computed independently (on its own simulator clone)
and placed into its disjoint, statically-known index range, with no
reductions across workers.  The per-shot block is abstracted as a function
of the shot and its index (the index stands for the statically-known
offsets, such as `cursorSteps`, at which the shot's input slices are
taken). -/

/-- The serial cursor loop shared by `MultiShot::getUpperBounds`,
`getLowerBounds`, `getInitialGuess`, `backpropGradient`,
`getSparseJacobian` and `getStates`: shot `i` writes its block `segOf i s`
into the buffer at the running cursor, which advances by the block
length. -/
def MultiShot.serialAssemble {α : Type} (segOf : ℕ → SingleShot → List α) :
    List SingleShot → List α → ℕ → ℕ → List α
  | [], buf, _, _ => buf
  | s :: rest, buf, i, cursor =>
      MultiShot.serialAssemble segOf rest (writeSeg buf cursor (segOf i s))
        (i + 1) (cursor + (segOf i s).length)

/-- The per-shot blocks from index `i` on, each computed independently of
the others. -/
def MultiShot.parallelSegs {α : Type} (segOf : ℕ → SingleShot → List α) :
    List SingleShot → ℕ → List (List α)
  | [], _ => []
  | s :: rest, i => segOf i s :: MultiShot.parallelSegs segOf rest (i + 1)

/-- Modelled from the spec: in parallel mode each shot's worker computes
its block and writes it into the shot's disjoint, statically-known index
range `[Σ_{j<i} len_j, Σ_{j≤i} len_j)`; the assembled output is therefore
the concatenation of the per-shot blocks (spec §4.5, §5). -/
def MultiShot.parallelAssemble {α : Type} (segOf : ℕ → SingleShot → List α)
    (shots : List SingleShot) : List α :=
  (MultiShot.parallelSegs segOf shots 0).flatten

theorem MultiShot.serialAssemble_eq {α : Type} (segOf : ℕ → SingleShot → List α) :
    ∀ (shots : List SingleShot) (buf : List α) (i cursor : ℕ),
      cursor + ((MultiShot.parallelSegs segOf shots i).map List.length).sum
          ≤ buf.length →
      MultiShot.serialAssemble segOf shots buf i cursor
        = buf.take cursor ++ (MultiShot.parallelSegs segOf shots i).flatten
            ++ buf.drop
              (cursor + ((MultiShot.parallelSegs segOf shots i).map List.length).sum) := by
  intro shots
  induction shots with
  | nil =>
    intro buf i cursor h
    simp [serialAssemble, parallelSegs, List.take_append_drop]
  | cons s rest ih =>
    intro buf i cursor h
    simp only [parallelSegs, List.map_cons, List.sum_cons] at h
    simp only [serialAssemble, parallelSegs, List.flatten_cons]
    have hseg : cursor + (segOf i s).length ≤ buf.length := by omega
    rw [ih _ _ _ (by rw [length_writeSeg _ _ _ hseg]; omega)]
    rw [writeSeg_take _ _ _ hseg]
    rw [writeSeg_drop_ge _ _ _ _ hseg (by omega)]
    simp only [List.map_cons, List.sum_cons, List.append_assoc, Nat.add_assoc]

/-- C7: turning on parallel mode changes no observable output.  The serial
cursor loops of the source and the spec-modelled parallel assembly produce
the same list, entry for entry (threshold 0), for each abstract per-shot
output: variable upper and lower bounds, backpropagated gradient segments,
sparse-Jacobian value blocks, and reconstructed rollout columns. -/
theorem C7_parallel_equals_serial (ubOf lbOf gradOf sparseOf stateOf : ℕ → SingleShot → Vec)
    (shots : List SingleShot) (b1 b2 b3 b4 b5 : Vec)
    (h1 : b1.length = ((MultiShot.parallelSegs ubOf shots 0).map List.length).sum)
    (h2 : b2.length = ((MultiShot.parallelSegs lbOf shots 0).map List.length).sum)
    (h3 : b3.length = ((MultiShot.parallelSegs gradOf shots 0).map List.length).sum)
    (h4 : b4.length = ((MultiShot.parallelSegs sparseOf shots 0).map List.length).sum)
    (h5 : b5.length = ((MultiShot.parallelSegs stateOf shots 0).map List.length).sum) :
    MultiShot.serialAssemble ubOf shots b1 0 0
        = MultiShot.parallelAssemble ubOf shots
    ∧ MultiShot.serialAssemble lbOf shots b2 0 0
        = MultiShot.parallelAssemble lbOf shots
    ∧ MultiShot.serialAssemble gradOf shots b3 0 0
        = MultiShot.parallelAssemble gradOf shots
    ∧ MultiShot.serialAssemble sparseOf shots b4 0 0
        = MultiShot.parallelAssemble sparseOf shots
    ∧ MultiShot.serialAssemble stateOf shots b5 0 0
        = MultiShot.parallelAssemble stateOf shots := by
  have key : ∀ (segOf : ℕ → SingleShot → Vec) (buf : Vec),
      buf.length = ((MultiShot.parallelSegs segOf shots 0).map List.length).sum →
      MultiShot.serialAssemble segOf shots buf 0 0
        = MultiShot.parallelAssemble segOf shots := by
    intro segOf buf hbuf
    rw [MultiShot.serialAssemble_eq segOf shots buf 0 0 (by omega)]
    rw [MultiShot.parallelAssemble, List.take_zero, Nat.zero_add,
      List.drop_of_length_le (le_of_eq hbuf), List.nil_append, List.append_nil]
  exact ⟨key ubOf b1 h1, key lbOf b2 h2, key gradOf b3 h3, key sparseOf b4 h4,
    key stateOf b5 h5⟩

/-- Witness for C7 with two shots and a concrete per-shot block function. -/
theorem C7_witness :
    MultiShot.serialAssemble (fun _ s => s.startPos)
        [⟨[1, 2], [], [], [], true⟩, ⟨[3], [], [], [], true⟩] [0, 0, 0] 0 0
      = MultiShot.parallelAssemble (fun _ s => s.startPos)
        [⟨[1, 2], [], [], [], true⟩, ⟨[3], [], [], [], true⟩] :=
  (C7_parallel_equals_serial (fun _ s => s.startPos) (fun _ s => s.startPos)
    (fun _ s => s.startPos) (fun _ s => s.startPos) (fun _ s => s.startPos)
    [⟨[1, 2], [], [], [], true⟩, ⟨[3], [], [], [], true⟩]
    [0, 0, 0] [0, 0, 0] [0, 0, 0] [0, 0, 0] [0, 0, 0]
    (by decide) (by decide) (by decide) (by decide) (by decide)).1

/-! ## Sparse versus dense Jacobian
(`MultiShot::getJacobianSparsityStructure`, `MultiShot::getSparseJacobian`,
`MultiShot::backpropJacobian`)

In `getJacobianSparsityStructure` the parent structure is written into the
first `n * numParentConstraints` entries of `rows`/`cols`, and `rowCursor`
is advanced past the parent rows — but `sparseCursor` is left at zero, so
the knot-pattern loop overwrites the buffer from index 0.  Meanwhile
`getSparseJacobian` starts its value cursor at
`AbstractShot::getNumberNonZeroJacobian()`.  Both cursor conventions are
embedded exactly as written; the index pairs are carried as one list of
pairs (the source writes `rows` and `cols` in lockstep). -/

/-- The index pairs of one dense knot block: column-major over columns
`[c0, c0 + dim)`, rows `[r0, r0 + stateDim)` (the source's nested
`for (col) for (row)` loops). -/
def colBlockPattern (r0 c0 stateDim dim : ℕ) : List (ℕ × ℕ) :=
  ((List.range dim).map
    (fun c => (List.range stateDim).map (fun r => (r0 + r, c0 + c)))).flatten

/-- The index pairs of the `-I` block: the diagonal entries
`(r0 + q, c0 + q)` for `q < stateDim`. -/
def diagPattern (r0 c0 stateDim : ℕ) : List (ℕ × ℕ) :=
  (List.range stateDim).map (fun q => (r0 + q, c0 + q))

/-- The knot-constraint pattern loop: for each pair, the dense block over
the earlier shot's columns, then the diagonal of the `-I` block at the next
shot's start-state columns; `colCursor` advances only by the earlier shot's
flat dimension. -/
def MultiShot.knotPattern (stateDim : ℕ) : List ℕ → ℕ → ℕ → List (ℕ × ℕ)
  | [], _, _ => []
  | dim :: rest, r0, c0 =>
      colBlockPattern r0 c0 stateDim dim ++ diagPattern r0 (c0 + dim) stateDim
        ++ MultiShot.knotPattern stateDim rest (r0 + stateDim) (c0 + dim)

/-- `MultiShot::getJacobianSparsityStructure`: the parent pattern is
written into the first `parentPattern.length` entries, then — because
`sparseCursor` is never advanced past the parent segment — the knot
pattern is written starting again at entry 0 (`rowCursor` does start below
the parent rows).  `parentPattern` abstracts the output of
`AbstractShot::getJacobianSparsityStructure`, `dims` lists the flat
dimensions of the first `N-1` shots. -/
def MultiShot.getJacobianSparsityStructure (parentPattern : List (ℕ × ℕ))
    (numParent stateDim : ℕ) (dims : List ℕ) (buf : List (ℕ × ℕ)) :
    List (ℕ × ℕ) :=
  writeSeg (writeSeg buf 0 parentPattern) 0
    (MultiShot.knotPattern stateDim dims numParent 0)

/-- `MultiShot::getSparseJacobian`: the value cursor starts at
`AbstractShot::getNumberNonZeroJacobian()` (`parentNNZ`), then each pair
emits its dense block column by column followed by `stateDim` entries of
`-1`.  The parent values are never written.  `jacs` abstracts the per-pair
outputs of `SingleShot::backpropJacobianOfFinalState`, each a matrix
stored as columns. -/
def MultiShot.getSparseJacobianValues (parentNNZ stateDim : ℕ)
    (jacs : List Mat) (buf : Vec) : Vec :=
  writeSeg buf parentNNZ
    ((jacs.map (fun jac => jac.flatten ++ List.replicate stateDim (-1))).flatten)

/-- Entry `(r, c)` of a matrix stored as columns, zero outside. -/
def matEntry (M : Mat) (r c : ℕ) : ℚ := (M.getD c []).getD r 0

/-- Overwrite the `rows × cols` block of a dense matrix (as an entry
function) at `(r0, c0)` with the given block. -/
def setBlock (m : ℕ → ℕ → ℚ) (r0 c0 rows cols : ℕ) (b : ℕ → ℕ → ℚ) :
    ℕ → ℕ → ℚ :=
  fun r c =>
    if r0 ≤ r ∧ r < r0 + rows ∧ c0 ≤ c ∧ c < c0 + cols then b (r - r0) (c - c0)
    else m r c

/-- The knot-constraint loop of `MultiShot::backpropJacobian`: per pair,
the dense block at `(rowCursor, colCursor)`, then `-I` at the next shot's
start-state columns; `colCursor` advances by the earlier shot's flat
dimension, `rowCursor` by `stateDim`. -/
def MultiShot.backpropJacobianKnots (stateDim : ℕ) :
    List Mat → ℕ → ℕ → (ℕ → ℕ → ℚ) → (ℕ → ℕ → ℚ)
  | [], _, _, m => m
  | jac :: rest, r0, c0, m =>
      let dim := jac.length
      let m1 := setBlock m r0 c0 stateDim dim (matEntry jac)
      let m2 := setBlock m1 r0 (c0 + dim) stateDim stateDim
        (fun r c => if r = c then -1 else 0)
      MultiShot.backpropJacobianKnots stateDim rest (r0 + stateDim) (c0 + dim) m2

/-- `MultiShot::backpropJacobian`: `jac.setZero()`, the parent block over
rows `[0, numParent)` and all `n` columns, then the knot blocks.
`parentJac` abstracts the output of `AbstractShot::backpropJacobian`. -/
def MultiShot.backpropJacobian (parentJac : ℕ → ℕ → ℚ)
    (numParent n stateDim : ℕ) (jacs : List Mat) : ℕ → ℕ → ℚ :=
  MultiShot.backpropJacobianKnots stateDim jacs numParent 0
    (setBlock (fun _ _ => 0) 0 0 numParent n parentJac)

/-- The reconstruction loop of the sparse-equals-dense property: scatter
the value at each `(row, col)` index pair into a zero matrix, later writes
winning. -/
def scatterSparse (pattern : List (ℕ × ℕ)) (vals : Vec) : ℕ → ℕ → ℚ :=
  (pattern.zip vals).foldl
    (fun m pv => fun r c => if r = pv.1.1 ∧ c = pv.1.2 then pv.2 else m r c)
    (fun _ _ => 0)

/-- C3 fails on the code: on a problem with two shots (earlier shot of flat
dimension 1), `stateDim = 1`, flat dimension `n = 2` and one parent
constraint with dense parent pattern `[(0,0), (0,1)]` (so
`parentNNZ = 2`), and the pair's final-state Jacobian `[5]`, the sparsity
structure comes out as `[(1,0), (1,1), (0,0), (0,0)]` (knot pattern
overwriting the parent segment) while the values come out as
`[0, 0, 5, -1]` (knot values after the untouched parent segment):
scattering yields entry `(1,0) = 0` and entry `(0,0) = -1`, whereas the
dense `backpropJacobian` has entry `(1,0) = 5` and entry `(0,0) = 1`. -/
theorem C3_sparse_dense_mismatch :
    MultiShot.getJacobianSparsityStructure [(0, 0), (0, 1)] 1 1 [1]
        (List.replicate 4 (0, 0))
      = [(1, 0), (1, 1), (0, 0), (0, 0)]
    ∧ MultiShot.getSparseJacobianValues 2 1 [[[5]]] (List.replicate 4 0)
      = [0, 0, 5, -1]
    ∧ scatterSparse
        (MultiShot.getJacobianSparsityStructure [(0, 0), (0, 1)] 1 1 [1]
          (List.replicate 4 (0, 0)))
        (MultiShot.getSparseJacobianValues 2 1 [[[5]]] (List.replicate 4 0))
        1 0
      = 0
    ∧ MultiShot.backpropJacobian (fun _ _ => 1) 1 2 1 [[[5]]] 1 0 = 5
    ∧ scatterSparse
        (MultiShot.getJacobianSparsityStructure [(0, 0), (0, 1)] 1 1 [1]
          (List.replicate 4 (0, 0)))
        (MultiShot.getSparseJacobianValues 2 1 [[[5]]] (List.replicate 4 0))
        1 0
      ≠ MultiShot.backpropJacobian (fun _ _ => 1) 1 2 1 [[[5]]] 1 0 := by
  refine ⟨by decide, by decide, by decide, by decide, by decide⟩

end Traj
